import Mathlib

/-!
Verification of the search core of claude-code-history-viewer.

The embedding translates the indexing, match-enumeration and navigation
subsystem from src/src/utils/searchIndex.ts and the session-search slice of
src/src/store/useAppStore.ts. JavaScript strings are modelled by Lean
String (char lists underneath), JavaScript numbers holding array indices by
Nat, and the navigation cursor (which can be -1) by Int. The third-party
FlexSearch inverted index is external library code, not part of this
repository; its candidate output is modelled as an explicit parameter of
the search function, and the try/catch around the store search call is
modelled by an Except-valued outcome parameter.
-/

/-- Model of the JavaScript String.prototype.trim call used by the source
(guards of the form query.trim()): whitespace stripped from both ends. -/
def jsTrim (s : String) : String :=
  String.mk (((s.data.dropWhile Char.isWhitespace).reverse.dropWhile Char.isWhitespace).reverse)

/-- Model of the JavaScript toLowerCase call: lower-case every character. -/
def lowerStr (s : String) : String :=
  String.mk (s.data.map Char.toLower)

/-- Modelled from the spec: a content block of a message (types.ts is not in
the provided sources). Each optional field is present exactly when the
corresponding JavaScript property exists and is a string, matching the
hasStringProperty guard of searchIndex.ts. -/
structure ContentRecord where
  text : Option String
  thinking : Option String
  type : Option String
  id : Option String
  toolUseId : Option String
deriving DecidableEq

/-- Modelled from the spec: one element of an array-shaped content field. A
value that is neither a string nor a plain record (per the isRecord guard)
is the constructor other and contributes no text. -/
inductive ContentItem where
  | str (s : String)
  | block (r : ContentRecord)
  | other
deriving DecidableEq

/-- Modelled from the spec: the content field of a message, either a raw
string, an ordered sequence of blocks, or some other value. -/
inductive MessageContent where
  | str (s : String)
  | arr (items : List ContentItem)
  | other
deriving DecidableEq

/-- Modelled from the spec: the toolUse record of a message (id and name,
each present exactly when the JavaScript property exists and is a string). -/
structure ToolUse where
  id : Option String
  name : Option String
deriving DecidableEq

/-- Modelled from the spec: the toolUseResult field, either a string, a
record with optional stdout, stderr and content string fields, or some
other value. -/
inductive ToolUseResult where
  | str (s : String)
  | record (stdout stderr content : Option String)
  | other
deriving DecidableEq

/-- Modelled from the spec: a conversation message. Only the fields read by
the search core are carried (uuid, content, toolUse, toolUseResult); role,
timestamp and the sidechain flag never reach this subsystem. -/
structure ClaudeMessage where
  uuid : String
  content : Option MessageContent
  toolUse : Option ToolUse
  toolUseResult : Option ToolUseResult
deriving DecidableEq

/-- The search filter type of useAppStore.ts: "content" or "toolId". -/
inductive SearchFilterType where
  | content
  | toolId
deriving DecidableEq

/-- Content section of extractSearchableText (searchIndex.ts lines 22-40).
The JavaScript truthiness test if (message.content) makes an empty string
content skip the whole branch; arrays are always truthy. -/
def contentTextParts : Option MessageContent → List String
  | none => []
  | some (MessageContent.str s) => if s = "" then [] else [s]
  | some (MessageContent.arr items) =>
    items.flatMap (fun item =>
      match item with
      | ContentItem.str s => [s]
      | ContentItem.block r =>
        (match r.text with | some t => [t] | none => [])
          ++ (match r.thinking with | some th => [th] | none => [])
      | ContentItem.other => [])
  | some MessageContent.other => []

/-- ToolUse-name section of extractSearchableText (searchIndex.ts lines
42-45): the name when toolUse is a record with a string name property. -/
def toolUseNameParts : Option ToolUse → List String
  | some tu => match tu.name with | some n => [n] | none => []
  | none => []

/-- ToolUseResult section of extractSearchableText (searchIndex.ts lines
47-63). An empty string result is falsy in the if (message.toolUseResult)
guard and contributes nothing. -/
def toolUseResultParts : Option ToolUseResult → List String
  | none => []
  | some (ToolUseResult.str s) => if s = "" then [] else [s]
  | some (ToolUseResult.record out err cont) =>
    (match out with | some s => [s] | none => [])
      ++ (match err with | some s => [s] | none => [])
      ++ (match cont with | some s => [s] | none => [])
  | some ToolUseResult.other => []

/-- extractSearchableText of searchIndex.ts: the parts array is filled from
content, then the toolUse name, then the toolUseResult, and joined with a
single space. -/
def extractSearchableText (message : ClaudeMessage) : String :=
  String.intercalate " "
    (contentTextParts message.content
      ++ toolUseNameParts message.toolUse
      ++ toolUseResultParts message.toolUseResult)

/-- Content section of extractToolIds (searchIndex.ts lines 75-90): from an
array-shaped content, the id of each block typed tool_use and the
tool_use_id of each block typed tool_result. -/
def toolIdContentParts : Option MessageContent → List String
  | some (MessageContent.arr items) =>
    items.flatMap (fun item =>
      match item with
      | ContentItem.block r =>
        (if r.type = some "tool_use" then
            (match r.id with | some i => [i] | none => [])
          else [])
          ++ (if r.type = some "tool_result" then
              (match r.toolUseId with | some i => [i] | none => [])
            else [])
      | _ => [])
  | _ => []

/-- ToolUse-id section of extractToolIds (searchIndex.ts lines 92-95). -/
def toolUseIdParts : Option ToolUse → List String
  | some tu => match tu.id with | some i => [i] | none => []
  | none => []

/-- extractToolIds of searchIndex.ts: the ids array joined with spaces. -/
def extractToolIds (message : ClaudeMessage) : String :=
  String.intercalate " "
    (toolIdContentParts message.content ++ toolUseIdParts message.toolUse)

/-- Model of the JavaScript String.prototype.indexOf on char lists: the
least index at which q occurs in t, or none. -/
def jsIndexOf (t q : List Char) : Option Nat :=
  if q.isPrefixOf t then some 0
  else
    match t with
    | [] => none
    | _ :: rest => (jsIndexOf rest q).map (· + 1)

/-- The while loop of findAllMatchesInText (searchIndex.ts lines 197-200):
find the next occurrence, count it, advance the position by the length of
the query. The loop is modelled with a fuel argument; fuel larger than the
text length is always sufficient because each iteration consumes at least
one character when the query is non-empty (the source never reaches this
loop with an empty query, search guards on query.trim()). -/
def countLoopAux : Nat → List Char → List Char → Nat
  | 0, _, _ => 0
  | fuel + 1, t, q =>
    match jsIndexOf t q with
    | none => 0
    | some i => 1 + countLoopAux fuel (t.drop (i + q.length)) q

/-- findAllMatchesInText of searchIndex.ts: lower-case both strings, then
count non-overlapping occurrences with the indexOf loop. -/
def findAllMatchesInText (text query : String) : Nat :=
  let lowerText := text.data.map Char.toLower
  let lowerQuery := query.data.map Char.toLower
  countLoopAux (lowerText.length + 1) lowerText lowerQuery

/-- Spec-side counting function, written from the words of the spec: scan
the lower-cased text left to right with a cursor; on an exact match of the
lower-cased query advance the cursor by the length of the query, otherwise
advance it by one character. -/
def scanCount (q : List Char) (t : List Char) : Nat :=
  match t with
  | [] => 0
  | c :: rest =>
    if q.isPrefixOf (c :: rest) then 1 + scanCount q (rest.drop (q.length - 1))
    else scanCount q rest
termination_by t.length
decreasing_by
  all_goals simp only [List.length_drop, List.length_cons]
  all_goals omega

/-- Spec-side non-overlapping, case-insensitive occurrence count. -/
def nonOverlapCount (text query : String) : Nat :=
  scanCount (query.data.map Char.toLower) (text.data.map Char.toLower)

/-- A single search match record (useAppStore.ts SearchMatch and the result
entries of MessageSearchIndex.search). -/
structure SearchMatch where
  messageUuid : String
  messageIndex : Nat
  matchIndex : Nat
  matchCount : Nat
deriving DecidableEq

/-- The comparator of the final sort in MessageSearchIndex.search
(searchIndex.ts lines 265-270), as the relation "a is ordered no later than
b": messageIndex descending, then matchIndex descending. -/
def matchOrder (a b : SearchMatch) : Prop :=
  b.messageIndex < a.messageIndex
    ∨ (b.messageIndex = a.messageIndex ∧ b.matchIndex ≤ a.matchIndex)

instance : DecidableRel matchOrder := fun a b =>
  decidable_of_iff
    (b.messageIndex < a.messageIndex
      ∨ (b.messageIndex = a.messageIndex ∧ b.matchIndex ≤ a.matchIndex))
    Iff.rfl

instance : IsTotal SearchMatch matchOrder :=
  ⟨fun a b => by unfold matchOrder; omega⟩

instance : IsTrans SearchMatch matchOrder :=
  ⟨fun a b c hab hbc => by unfold matchOrder at hab hbc ⊢; omega⟩

/-- The ordering law stated by the spec, as a relation between a match and
any later match in the list: later matches have a messageIndex no larger,
and on equal messageIndex a matchIndex no larger. -/
def claimOrder (a b : SearchMatch) : Prop :=
  b.messageIndex ≤ a.messageIndex
    ∧ (a.messageIndex = b.messageIndex → b.matchIndex ≤ a.matchIndex)

/-- Deduplication of the candidate uuid list, preserving first-occurrence
order, modelling the JavaScript Set the source collects matched uuids in. -/
def dedupFirstAux : List String → List String → List String
  | [], _ => []
  | x :: xs, seen =>
    if x ∈ seen then dedupFirstAux xs seen
    else x :: dedupFirstAux xs (x :: seen)

/-- First-occurrence deduplication, see dedupFirstAux. -/
def dedupFirst (l : List String) : List String :=
  dedupFirstAux l []

/-- State of the MessageSearchIndex class (searchIndex.ts lines 138-148):
the uuid-to-messageIndex map, the stored message snapshot, and the isBuilt
flag. The two FlexSearch document indexes are external library objects; the
candidate uuids they would return are passed to search explicitly. -/
structure MessageSearchIndex where
  messageMap : List (String × Nat)
  messages : List ClaudeMessage
  isBuilt : Bool
deriving DecidableEq

/-- The constructor state of MessageSearchIndex: empty map, no messages,
not built. -/
def MessageSearchIndex.init : MessageSearchIndex :=
  { messageMap := [], messages := [], isBuilt := false }

/-- MessageSearchIndex.clear (searchIndex.ts lines 276-282): fresh indexes,
cleared map, dropped snapshot, isBuilt reset. -/
def MessageSearchIndex.clear (_idx : MessageSearchIndex) : MessageSearchIndex :=
  MessageSearchIndex.init

/-- MessageSearchIndex.build (searchIndex.ts lines 151-188): clear, store
the snapshot, record uuid to index for every message (a JavaScript Map, so
a later duplicate uuid overrides an earlier one: the reversed association
list makes List.lookup find the last write), set isBuilt. -/
def MessageSearchIndex.build (_idx : MessageSearchIndex) (messages : List ClaudeMessage) :
    MessageSearchIndex :=
  { messageMap := (messages.enum.map (fun p => (p.2.uuid, p.1))).reverse
    messages := messages
    isBuilt := true }

/-- MessageSearchIndex.search (searchIndex.ts lines 206-273). The
candidates parameter stands for the uuids the FlexSearch lookup returns
(external library code); everything after that lookup is translated
directly: guard on isBuilt and a blank query, deduplicate candidate uuids,
resolve each through the message map and the snapshot (skipping unresolved
ones), re-extract the field text, count exact occurrences, emit one record
per occurrence, and sort by messageIndex descending then matchIndex
descending. -/
def MessageSearchIndex.search (idx : MessageSearchIndex) (candidates : List String)
    (query : String) (filterType : SearchFilterType) : List SearchMatch :=
  if idx.isBuilt = false ∨ jsTrim query = "" then []
  else
    let lowerQuery := lowerStr query
    let matchedUuids := dedupFirst candidates
    let allMatches := matchedUuids.flatMap (fun uuid =>
      match List.lookup uuid idx.messageMap with
      | none => []
      | some messageIndex =>
        match idx.messages[messageIndex]? with
        | none => []
        | some message =>
          let messageText :=
            match filterType with
            | SearchFilterType.toolId => extractToolIds message
            | SearchFilterType.content => extractSearchableText message
          let matchCount := findAllMatchesInText messageText lowerQuery
          (List.range matchCount).map (fun i =>
            { messageUuid := uuid, messageIndex := messageIndex,
              matchIndex := i, matchCount := matchCount }))
    List.insertionSort matchOrder allMatches

/-- The session search state of useAppStore.ts (SearchState, lines
115-125), including the deprecated legacy results field. -/
structure SearchState where
  query : String
  «matches» : List SearchMatch
  currentMatchIndex : Int
  isSearching : Bool
  filterType : SearchFilterType
  results : List ClaudeMessage
deriving DecidableEq

/-- createEmptySearchState of useAppStore.ts (lines 128-135). -/
def createEmptySearchState (filterType : SearchFilterType) : SearchState :=
  { query := ""
    «matches» := []
    currentMatchIndex := -1
    isSearching := false
    filterType := filterType
    results := [] }

/-- The initial sessionSearch state of the store (useAppStore.ts lines
167-174). -/
def initialSessionSearch : SearchState :=
  { query := ""
    «matches» := []
    currentMatchIndex := -1
    isSearching := false
    filterType := SearchFilterType.content
    results := [] }

/-- setSessionSearchQuery of useAppStore.ts (lines 710-772). The outcome
parameter stands for the result of the searchMessagesFromIndex call inside
the try block: ok with the raw match list, or error when that call threw.
A blank query resets to the empty state; otherwise the raw results are
filtered to valid message indexes (the lower bound is automatic for Nat),
the cursor is set to 0 when matches exist and -1 otherwise, and on error
the matches are cleared while the query string is kept. The transient
isSearching flag is set and then cleared within the same synchronous call;
the returned state is the final one. -/
def setSessionSearchQuery (messages : List ClaudeMessage) (s : SearchState)
    (query : String) (outcome : Except Unit (List SearchMatch)) : SearchState :=
  if jsTrim query = "" then createEmptySearchState s.filterType
  else
    match outcome with
    | Except.ok searchResults =>
      let valid := searchResults.filter (fun r => decide (r.messageIndex < messages.length))
      { query := query
        «matches» := valid
        currentMatchIndex := if 0 < valid.length then 0 else -1
        isSearching := false
        filterType := s.filterType
        results := valid.filterMap (fun m => messages[m.messageIndex]?) }
    | Except.error _ =>
      { query := query
        «matches» := []
        currentMatchIndex := -1
        isSearching := false
        filterType := s.filterType
        results := [] }

/-- goToNextMatch of useAppStore.ts (lines 775-786). The JavaScript
remainder operator truncates toward zero, which Int.tmod models. -/
def goToNextMatch (s : SearchState) : SearchState :=
  if s.matches.length = 0 then s
  else
    { s with currentMatchIndex :=
        Int.tmod (s.currentMatchIndex + 1) (s.matches.length : Int) }

/-- goToPrevMatch of useAppStore.ts (lines 789-806): wrap from the first
match (cursor at or below 0) to the last. -/
def goToPrevMatch (s : SearchState) : SearchState :=
  if s.matches.length = 0 then s
  else
    { s with currentMatchIndex :=
        if s.currentMatchIndex ≤ 0 then (s.matches.length : Int) - 1
        else s.currentMatchIndex - 1 }

/-- goToMatchIndex of useAppStore.ts (lines 809-825): reject an
out-of-range index, otherwise set the cursor. -/
def goToMatchIndex (s : SearchState) (index : Int) : SearchState :=
  if index < 0 ∨ (s.matches.length : Int) ≤ index then s
  else { s with currentMatchIndex := index }

/-- clearSessionSearch of useAppStore.ts (lines 827-831): empty state with
the current filter type preserved. -/
def clearSessionSearch (s : SearchState) : SearchState :=
  createEmptySearchState s.filterType

/-- setSearchFilterType of useAppStore.ts (lines 834-838): empty state with
the new filter type; the previous state is discarded entirely. -/
def setSearchFilterType (filterType : SearchFilterType) : SearchState :=
  createEmptySearchState filterType

/-- The cursor invariant of the spec: currentMatchIndex is -1 or a valid
index into matches. -/
def cursorInv (s : SearchState) : Prop :=
  s.currentMatchIndex = -1
    ∨ (0 ≤ s.currentMatchIndex ∧ s.currentMatchIndex < (s.matches.length : Int))

/-- Search states reachable from the initial store state by the search
actions, over a fixed message snapshot. The outcome argument of setQuery
ranges over every possible result of the index call, including a thrown
error. -/
inductive Reachable (messages : List ClaudeMessage) : SearchState → Prop where
  | init : Reachable messages initialSessionSearch
  | setQuery {s : SearchState} (query : String) (outcome : Except Unit (List SearchMatch)) :
      Reachable messages s → Reachable messages (setSessionSearchQuery messages s query outcome)
  | next {s : SearchState} : Reachable messages s → Reachable messages (goToNextMatch s)
  | prev {s : SearchState} : Reachable messages s → Reachable messages (goToPrevMatch s)
  | jump {s : SearchState} (i : Int) : Reachable messages s → Reachable messages (goToMatchIndex s i)
  | setFilter {s : SearchState} (f : SearchFilterType) :
      Reachable messages s → Reachable messages (setSearchFilterType f)
  | clearSearch {s : SearchState} : Reachable messages s → Reachable messages (clearSessionSearch s)

/-- Claim-side extraction function for C3, written from the words of the
claim: for a block, the text field if present, ELSE the thinking field if
present (thinking contributes only when no text field is present). -/
def claimItemPartsOrig : ContentItem → List String
  | ContentItem.str s => [s]
  | ContentItem.block r =>
    match r.text with
    | some t => [t]
    | none => r.thinking.toList
  | ContentItem.other => []

/-- Content contribution per the C3 claim wording. -/
def claimContentPartsOrig : Option MessageContent → List String
  | some (MessageContent.str s) => if s = "" then [] else [s]
  | some (MessageContent.arr items) => items.flatMap claimItemPartsOrig
  | _ => []

/-- The extraction function the C3 claim describes. -/
def extractContentTextClaim (m : ClaudeMessage) : String :=
  String.intercalate " "
    (claimContentPartsOrig m.content
      ++ toolUseNameParts m.toolUse
      ++ toolUseResultParts m.toolUseResult)

/-- Amended claim-side item contribution: the element itself if a string,
else its text field if present, and additionally its thinking field if
present (both contribute, text first, when both are present). -/
def claimItemParts : ContentItem → List String
  | ContentItem.str s => [s]
  | ContentItem.block r => r.text.toList ++ r.thinking.toList
  | ContentItem.other => []

/-- Content contribution per the amended C3 claim wording. -/
def claimContentParts : Option MessageContent → List String
  | some (MessageContent.str s) => if s = "" then [] else [s]
  | some (MessageContent.arr items) => items.flatMap claimItemParts
  | _ => []

/-- Amended claim-side toolUse contribution: toolUse.name if it is a
string. -/
def claimToolUseParts : Option ToolUse → List String
  | some tu => tu.name.toList
  | none => []

/-- Amended claim-side toolUseResult contribution: the result itself if a
non-empty string, else its stdout, stderr and content string fields. -/
def claimToolResultParts : Option ToolUseResult → List String
  | some (ToolUseResult.str s) => if s = "" then [] else [s]
  | some (ToolUseResult.record out err cont) => out.toList ++ err.toList ++ cont.toList
  | _ => []

/-- The extraction function the amended C3 claim describes. -/
def extractContentTextAmended (m : ClaudeMessage) : String :=
  String.intercalate " "
    (claimContentParts m.content
      ++ claimToolUseParts m.toolUse
      ++ claimToolResultParts m.toolUseResult)

/-- Concrete message whose single content block carries both a text and a
thinking string; it separates the code from the C3 claim. -/
def c3Message : ClaudeMessage :=
  { uuid := "m0"
    content := some (MessageContent.arr
      [ContentItem.block
        { text := some "alpha", thinking := some "beta",
          type := none, id := none, toolUseId := none }])
    toolUse := none
    toolUseResult := none }

/-- Concrete search match records for witnesses. -/
def exMatchA : SearchMatch :=
  { messageUuid := "u1", messageIndex := 1, matchIndex := 0, matchCount := 1 }

/-- Second concrete search match record for witnesses. -/
def exMatchB : SearchMatch :=
  { messageUuid := "u0", messageIndex := 0, matchIndex := 0, matchCount := 1 }

/-- Concrete search state with two matches and the cursor on the first. -/
def exState : SearchState :=
  { query := "hello"
    «matches» := [exMatchA, exMatchB]
    currentMatchIndex := 0
    isSearching := false
    filterType := SearchFilterType.content
    results := [] }

/-- Helper: the translated content section agrees with the amended
claim-side content section. -/
theorem contentTextParts_eq_claim (c : Option MessageContent) :
    contentTextParts c = claimContentParts c := by
  cases c with
  | none => rfl
  | some mc =>
    cases mc with
    | str s => rfl
    | other => rfl
    | arr items =>
      simp only [contentTextParts, claimContentParts]
      apply List.flatMap_congr
      intro item _
      cases item with
      | str s => rfl
      | other => rfl
      | block r =>
        obtain ⟨rt, rth, rty, rid, rtid⟩ := r
        cases rt <;> cases rth <;> rfl

/-- Helper: the translated toolUse section agrees with the amended
claim-side toolUse section. -/
theorem toolUseNameParts_eq_claim (tu : Option ToolUse) :
    toolUseNameParts tu = claimToolUseParts tu := by
  cases tu with
  | none => rfl
  | some t =>
    obtain ⟨tid, tname⟩ := t
    cases tname <;> rfl

/-- Helper: the translated toolUseResult section agrees with the amended
claim-side toolUseResult section. -/
theorem toolUseResultParts_eq_claim (tr : Option ToolUseResult) :
    toolUseResultParts tr = claimToolResultParts tr := by
  cases tr with
  | none => rfl
  | some t =>
    cases t with
    | str s => rfl
    | other => rfl
    | record out err cont => cases out <;> cases err <;> cases cont <;> rfl

/-- C3 counterexample: on a content block carrying both a text and a
thinking string, extractSearchableText keeps both contributions, while the
extraction function described by the claim (thinking only when no text
field is present) keeps only the text; the two functions differ at this
message. -/
theorem extractContentText_claim_counterexample :
    extractSearchableText c3Message = "alpha beta"
    ∧ extractContentTextClaim c3Message = "alpha"
    ∧ ¬ extractSearchableText c3Message = extractContentTextClaim c3Message := by
  refine ⟨?_, ?_, ?_⟩ <;> decide

/-- C3 (amended): extractContentText returns the space-joined concatenation
of the raw string content (when a non-empty string), or, per element of the
content sequence, the element itself if a string, else its text field if
present and additionally its thinking field if present (both contribute,
text first, when both are present); followed by toolUse.name if it is a
string, and the toolUseResult contributions. -/
theorem extractContentText_amended (m : ClaudeMessage) :
    extractSearchableText m = extractContentTextAmended m := by
  obtain ⟨u, content, toolUse, toolUseResult⟩ := m
  unfold extractSearchableText extractContentTextAmended
  dsimp only
  rw [contentTextParts_eq_claim, toolUseNameParts_eq_claim, toolUseResultParts_eq_claim]

/-- C1: for every index state, candidate set, query and field, each match
in the list returned by search is related to every later match by the
global ordering rule: a strictly larger messageIndex comes first, and on
equal messageIndex the larger matchIndex comes first. -/
theorem search_ordering (idx : MessageSearchIndex) (candidates : List String)
    (query : String) (filterType : SearchFilterType) :
    List.Pairwise claimOrder (idx.search candidates query filterType) := by
  unfold MessageSearchIndex.search
  split
  · exact List.Pairwise.nil
  · refine List.Pairwise.imp ?_ (List.sorted_insertionSort matchOrder _)
    intro a b h
    unfold matchOrder at h
    unfold claimOrder
    omega

/-- C7: the indexing engine returns no matches for a blank query, before
any build (the constructor state), and after clear, whatever the candidate
set the external index would offer. -/
theorem search_guard_empty (idx : MessageSearchIndex) (candidates : List String)
    (query : String) (filterType : SearchFilterType) :
    (jsTrim query = "" → idx.search candidates query filterType = [])
    ∧ MessageSearchIndex.init.search candidates query filterType = []
    ∧ (MessageSearchIndex.clear idx).search candidates query filterType = [] := by
  refine ⟨?_, ?_, ?_⟩
  · intro h
    unfold MessageSearchIndex.search
    rw [if_pos (Or.inr h)]
  · unfold MessageSearchIndex.search
    have hb : MessageSearchIndex.init.isBuilt = false := rfl
    rw [if_pos (Or.inl hb)]
  · unfold MessageSearchIndex.search
    have hb : (MessageSearchIndex.clear idx).isBuilt = false := rfl
    rw [if_pos (Or.inl hb)]

/-- C7 witness: concrete instance with a whitespace query on the
constructor state. -/
theorem search_guard_empty_witness :
    MessageSearchIndex.init.search ["u1"] "  " SearchFilterType.content = [] :=
  (search_guard_empty MessageSearchIndex.init ["u1"] "  " SearchFilterType.content).1 (by decide)

/-- C5: for a non-blank query, setSessionSearchQuery ends with the query
stored, the searching flag cleared, the cursor 0 exactly when the final
match list is non-empty and -1 otherwise, and on an internal search error
the final match list is empty (so the cursor is -1) while the query string
is preserved. -/
theorem setSessionSearchQuery_final_state (messages : List ClaudeMessage) (s : SearchState)
    (query : String) (outcome : Except Unit (List SearchMatch))
    (hq : ¬ jsTrim query = "") :
    (setSessionSearchQuery messages s query outcome).query = query
    ∧ (setSessionSearchQuery messages s query outcome).isSearching = false
    ∧ (setSessionSearchQuery messages s query outcome).currentMatchIndex
        = (if 0 < (setSessionSearchQuery messages s query outcome).matches.length
            then 0 else -1)
    ∧ (outcome = Except.error ()
        → (setSessionSearchQuery messages s query outcome).matches = []) := by
  unfold setSessionSearchQuery
  rw [if_neg hq]
  cases outcome with
  | ok rs =>
    refine ⟨rfl, rfl, rfl, ?_⟩
    intro h
    simp at h
  | error e => exact ⟨rfl, rfl, by simp, fun _ => rfl⟩

/-- C5 witness: concrete instance with a non-blank query and an erroring
index call. -/
theorem setSessionSearchQuery_final_state_witness :
    (setSessionSearchQuery [] initialSessionSearch "hi" (Except.error ())).query = "hi"
    ∧ (setSessionSearchQuery [] initialSessionSearch "hi" (Except.error ())).matches = [] := by
  have h := setSessionSearchQuery_final_state [] initialSessionSearch "hi" (Except.error ())
    (by decide)
  exact ⟨h.1, h.2.2.2 rfl⟩

/-- C6: goToMatchIndex rejects an out-of-range index leaving the state
unchanged, and sets the cursor for an in-range index. -/
theorem goToMatchIndex_validated (s : SearchState) (i : Int) :
    ((i < 0 ∨ (s.matches.length : Int) ≤ i) → goToMatchIndex s i = s)
    ∧ (0 ≤ i → i < (s.matches.length : Int) →
        goToMatchIndex s i = { s with currentMatchIndex := i }) := by
  constructor
  · intro h
    unfold goToMatchIndex
    rw [if_pos h]
  · intro h1 h2
    unfold goToMatchIndex
    rw [if_neg (by omega)]

/-- C6 witness: concrete instances of the rejected and accepted branches. -/
theorem goToMatchIndex_validated_witness :
    goToMatchIndex exState 5 = exState
    ∧ goToMatchIndex exState 1 = { exState with currentMatchIndex := 1 } :=
  ⟨(goToMatchIndex_validated exState 5).1 (Or.inr (by decide)),
   (goToMatchIndex_validated exState 1).2 (by decide) (by decide)⟩

/-- C9: setFilterType resets the whole search state to the empty state
carrying the new filter type, and clear resets it carrying the previous
filter type. -/
theorem reset_actions_idle (s : SearchState) (f : SearchFilterType) :
    setSearchFilterType f =
      { query := "", «matches» := [], currentMatchIndex := -1,
        isSearching := false, filterType := f, results := [] }
    ∧ clearSessionSearch s =
      { query := "", «matches» := [], currentMatchIndex := -1,
        isSearching := false, filterType := s.filterType, results := [] } :=
  ⟨rfl, rfl⟩

/-- C10: the navigation actions change at most the cursor: query, matches,
filter type, searching flag and the legacy results list are untouched. -/
theorem navigation_frame (s : SearchState) (i : Int) :
    ((goToNextMatch s).query = s.query ∧ (goToNextMatch s).matches = s.matches
      ∧ (goToNextMatch s).filterType = s.filterType
      ∧ (goToNextMatch s).isSearching = s.isSearching
      ∧ (goToNextMatch s).results = s.results)
    ∧ ((goToPrevMatch s).query = s.query ∧ (goToPrevMatch s).matches = s.matches
      ∧ (goToPrevMatch s).filterType = s.filterType
      ∧ (goToPrevMatch s).isSearching = s.isSearching
      ∧ (goToPrevMatch s).results = s.results)
    ∧ ((goToMatchIndex s i).query = s.query ∧ (goToMatchIndex s i).matches = s.matches
      ∧ (goToMatchIndex s i).filterType = s.filterType
      ∧ (goToMatchIndex s i).isSearching = s.isSearching
      ∧ (goToMatchIndex s i).results = s.results) := by
  refine ⟨⟨?_, ?_, ?_, ?_, ?_⟩, ⟨?_, ?_, ?_, ?_, ?_⟩, ⟨?_, ?_, ?_, ?_, ?_⟩⟩ <;>
    simp only [goToNextMatch, goToPrevMatch, goToMatchIndex] <;> split <;> rfl

/-- Helper: goToNextMatch never changes the match list. -/
theorem goToNextMatch_matches (s : SearchState) :
    (goToNextMatch s).matches = s.matches := by
  unfold goToNextMatch
  split <;> rfl

/-- Helper: cursor formula of goToNextMatch on a non-empty match list. -/
theorem goToNextMatch_cursor (s : SearchState) (h : ¬ s.matches.length = 0) :
    (goToNextMatch s).currentMatchIndex
      = Int.tmod (s.currentMatchIndex + 1) (s.matches.length : Int) := by
  unfold goToNextMatch
  rw [if_neg h]

/-- Helper: starting from cursor 0, k applications of goToNextMatch leave
the match list unchanged and put the cursor at k modulo the length. -/
theorem iterate_goToNextMatch_from_zero (s : SearchState) (h : s.matches ≠ []) (k : Nat) :
    (goToNextMatch^[k] { s with currentMatchIndex := 0 }).matches = s.matches
    ∧ (goToNextMatch^[k] { s with currentMatchIndex := 0 }).currentMatchIndex
        = (k : Int) % (s.matches.length : Int) := by
  have hlen : s.matches.length ≠ 0 := fun h0 => h (List.length_eq_zero.mp h0)
  have hlenI : ((s.matches.length : Int)) ≠ 0 := by exact_mod_cast hlen
  induction k with
  | zero => exact ⟨rfl, by simp⟩
  | succ n ih =>
    rw [Function.iterate_succ_apply']
    obtain ⟨hm, hc⟩ := ih
    have hlen2 : ¬ (goToNextMatch^[n] { s with currentMatchIndex := 0 }).matches.length = 0 := by
      rw [hm]; exact hlen
    constructor
    · rw [goToNextMatch_matches, hm]
    · rw [goToNextMatch_cursor _ hlen2, hc, hm]
      have hnn : 0 ≤ (n : Int) % (s.matches.length : Int) := Int.emod_nonneg _ hlenI
      rw [Int.tmod_eq_emod (by omega) (by omega), Int.emod_add_emod]
      push_cast
      rfl

/-- C4: on a non-empty match list, next moves the cursor to cursor plus one
modulo the length (stated for cursors at or above -1, which covers every
state satisfying the cursor invariant), length-many next calls from
cursor 0 return the cursor to 0, one prev from cursor 0 lands on the last
index, and on an empty match list both actions are no-ops. -/
theorem navigation_cyclic (s : SearchState) :
    (s.matches ≠ [] → -1 ≤ s.currentMatchIndex →
      (goToNextMatch s).currentMatchIndex
        = (s.currentMatchIndex + 1) % (s.matches.length : Int))
    ∧ (s.matches ≠ [] →
      (goToNextMatch^[s.matches.length]
          { s with currentMatchIndex := 0 }).currentMatchIndex = 0)
    ∧ (s.matches ≠ [] →
      (goToPrevMatch { s with currentMatchIndex := 0 }).currentMatchIndex
        = (s.matches.length : Int) - 1)
    ∧ (s.matches = [] → goToNextMatch s = s ∧ goToPrevMatch s = s) := by
  refine ⟨?_, ?_, ?_, ?_⟩
  · intro h hc
    have hlen : ¬ s.matches.length = 0 := fun h0 => h (List.length_eq_zero.mp h0)
    rw [goToNextMatch_cursor s hlen]
    exact Int.tmod_eq_emod (by omega) (by omega)
  · intro h
    rw [(iterate_goToNextMatch_from_zero s h s.matches.length).2]
    exact Int.emod_self
  · intro h
    have hlen : ¬ s.matches.length = 0 := fun h0 => h (List.length_eq_zero.mp h0)
    have h0 : ¬ ({ s with currentMatchIndex := 0 } : SearchState).matches.length = 0 := hlen
    unfold goToPrevMatch
    rw [if_neg h0]
    simp
  · intro h
    have hlen : s.matches.length = 0 := by rw [h]; rfl
    constructor
    · unfold goToNextMatch
      rw [if_pos hlen]
    · unfold goToPrevMatch
      rw [if_pos hlen]

/-- C4 witness: concrete instances on a two-match state and on the empty
initial state. -/
theorem navigation_cyclic_witness :
    (goToNextMatch exState).currentMatchIndex
        = (exState.currentMatchIndex + 1) % (exState.matches.length : Int)
    ∧ (goToNextMatch^[exState.matches.length]
        { exState with currentMatchIndex := 0 }).currentMatchIndex = 0
    ∧ (goToPrevMatch { exState with currentMatchIndex := 0 }).currentMatchIndex
        = (exState.matches.length : Int) - 1
    ∧ (goToNextMatch initialSessionSearch = initialSessionSearch
        ∧ goToPrevMatch initialSessionSearch = initialSessionSearch) :=
  ⟨(navigation_cyclic exState).1 (by decide) (by decide),
   (navigation_cyclic exState).2.1 (by decide),
   (navigation_cyclic exState).2.2.1 (by decide),
   (navigation_cyclic initialSessionSearch).2.2.2 rfl⟩

/-- Helper: goToNextMatch preserves the cursor invariant. -/
theorem cursorInv_goToNextMatch (s : SearchState) (h : cursorInv s) :
    cursorInv (goToNextMatch s) := by
  unfold goToNextMatch
  by_cases hlen : s.matches.length = 0
  · rw [if_pos hlen]; exact h
  · rw [if_neg hlen]
    unfold cursorInv at h ⊢
    dsimp only
    right
    have hlpos : 0 < (s.matches.length : Int) := by omega
    rcases h with hneg | ⟨h1, h2⟩
    · rw [hneg]
      rw [show (-1 : Int) + 1 = 0 by ring, Int.zero_tmod]
      exact ⟨le_refl 0, hlpos⟩
    · rw [Int.tmod_eq_emod (by omega) (by omega)]
      exact ⟨Int.emod_nonneg _ (by omega), Int.emod_lt_of_pos _ hlpos⟩

/-- Helper: goToPrevMatch preserves the cursor invariant. -/
theorem cursorInv_goToPrevMatch (s : SearchState) (h : cursorInv s) :
    cursorInv (goToPrevMatch s) := by
  unfold goToPrevMatch
  by_cases hlen : s.matches.length = 0
  · rw [if_pos hlen]; exact h
  · rw [if_neg hlen]
    unfold cursorInv at h ⊢
    dsimp only
    right
    constructor <;> split <;> omega

/-- Helper: goToMatchIndex preserves the cursor invariant. -/
theorem cursorInv_goToMatchIndex (s : SearchState) (i : Int) (h : cursorInv s) :
    cursorInv (goToMatchIndex s i) := by
  unfold goToMatchIndex
  by_cases hc : (i < 0 ∨ (s.matches.length : Int) ≤ i)
  · rw [if_pos hc]; exact h
  · rw [if_neg hc]
    unfold cursorInv
    dsimp only
    right
    constructor <;> omega

/-- Helper: setSessionSearchQuery establishes the cursor invariant from
scratch, whatever the prior state and the outcome of the index call. -/
theorem cursorInv_setSessionSearchQuery (messages : List ClaudeMessage) (s : SearchState)
    (query : String) (outcome : Except Unit (List SearchMatch)) :
    cursorInv (setSessionSearchQuery messages s query outcome) := by
  unfold setSessionSearchQuery
  by_cases hq : jsTrim query = ""
  · rw [if_pos hq]; exact Or.inl rfl
  · rw [if_neg hq]
    cases outcome with
    | error e => exact Or.inl rfl
    | ok rs =>
      unfold cursorInv
      dsimp only
      by_cases hpos :
          0 < (rs.filter (fun r => decide (r.messageIndex < messages.length))).length
      · right
        rw [if_pos hpos]
        constructor
        · exact le_refl 0
        · omega
      · left
        rw [if_neg hpos]

/-- C8: in every search state reachable by any sequence of the search
actions, currentMatchIndex is -1 or a valid index into the match list. -/
theorem searchState_invariant (messages : List ClaudeMessage) (s : SearchState)
    (h : Reachable messages s) : cursorInv s := by
  induction h with
  | init => exact Or.inl rfl
  | setQuery query outcome hr ih => exact cursorInv_setSessionSearchQuery messages _ query outcome
  | next hr ih => exact cursorInv_goToNextMatch _ ih
  | prev hr ih => exact cursorInv_goToPrevMatch _ ih
  | jump i hr ih => exact cursorInv_goToMatchIndex _ i ih
  | setFilter f hr ih => exact Or.inl rfl
  | clearSearch hr ih => exact Or.inl rfl

/-- C8 witness: the invariant at the initial state, through the theorem. -/
theorem searchState_invariant_witness : cursorInv initialSessionSearch :=
  searchState_invariant [] initialSessionSearch Reachable.init


/-- Helper: a found index really carries an occurrence of the query. -/
theorem jsIndexOf_isPrefixOf {t q : List Char} {i : Nat} (h : jsIndexOf t q = some i) :
    q.isPrefixOf (t.drop i) = true := by
  induction t generalizing i with
  | nil =>
    unfold jsIndexOf at h
    by_cases hp : q.isPrefixOf [] <;> simp [hp] at h
    subst h
    simpa using hp
  | cons c rest ih =>
    unfold jsIndexOf at h
    by_cases hp : q.isPrefixOf (c :: rest)
    · simp [hp] at h
      subst h
      simpa using hp
    · simp [hp] at h
      obtain ⟨j, hj, rfl⟩ := h
      simpa using ih hj

/-- Helper: for a non-empty query, a found index lies inside the text. -/
theorem jsIndexOf_lt {t q : List Char} {i : Nat} (hq : q ≠ []) (h : jsIndexOf t q = some i) :
    i < t.length := by
  have hp := jsIndexOf_isPrefixOf h
  by_contra hge
  push_neg at hge
  rw [List.drop_eq_nil_of_le hge] at hp
  rcases q with _ | ⟨a, q2⟩
  · exact hq rfl
  · simp [List.isPrefixOf] at hp

/-- Helper: one unfolding step of the counting loop. -/
theorem countLoopAux_succ (fuel : Nat) (t q : List Char) :
    countLoopAux (fuel + 1) t q
      = match jsIndexOf t q with
        | none => 0
        | some i => 1 + countLoopAux fuel (t.drop (i + q.length)) q := rfl

/-- Helper: the counting loop stops when indexOf finds nothing. -/
theorem countLoopAux_succ_of_none {t q : List Char} {fuel : Nat}
    (h : jsIndexOf t q = none) : countLoopAux (fuel + 1) t q = 0 := by
  rw [countLoopAux_succ, h]

/-- Helper: the counting loop counts one occurrence and advances past it. -/
theorem countLoopAux_succ_of_some {t q : List Char} {fuel i : Nat}
    (h : jsIndexOf t q = some i) :
    countLoopAux (fuel + 1) t q = 1 + countLoopAux fuel (t.drop (i + q.length)) q := by
  rw [countLoopAux_succ, h]

/-- Helper: the fuel argument of the counting loop is irrelevant as soon as
it exceeds the text length (the loop consumes at least one character per
iteration for a non-empty query). -/
theorem countLoopAux_congr (q : List Char) (hq : q ≠ []) :
    ∀ (f1 : Nat) (t : List Char) (f2 : Nat), t.length < f1 → t.length < f2 →
      countLoopAux f1 t q = countLoopAux f2 t q := by
  intro f1
  induction f1 with
  | zero => intro t f2 h1 h2; omega
  | succ g1 ih =>
    intro t f2 h1 h2
    cases f2 with
    | zero => omega
    | succ g2 =>
      cases hidx : jsIndexOf t q with
      | none => rw [countLoopAux_succ_of_none hidx, countLoopAux_succ_of_none hidx]
      | some i =>
        rw [countLoopAux_succ_of_some hidx, countLoopAux_succ_of_some hidx]
        have hi : i < t.length := jsIndexOf_lt hq hidx
        have hqlen : 1 ≤ q.length := by
          rcases q with _ | ⟨a, q2⟩
          · exact absurd rfl hq
          · simp
        have hl1 : (t.drop (i + q.length)).length < g1 := by
          simp only [List.length_drop]; omega
        have hl2 : (t.drop (i + q.length)).length < g2 := by
          simp only [List.length_drop]; omega
        rw [ih (t.drop (i + q.length)) g2 hl1 hl2]

/-- Helper: with sufficient fuel, the indexOf-advance loop of the source
computes exactly the spec-side left-to-right cursor scan. -/
theorem countLoopAux_eq_scanCount (q : List Char) (hq : q ≠ []) :
    ∀ (fuel : Nat) (t : List Char), t.length < fuel →
      countLoopAux fuel t q = scanCount q t := by
  intro fuel
  induction fuel with
  | zero => intro t h; omega
  | succ g ih =>
    intro t hlt
    by_cases hp : q.isPrefixOf t
    · rcases t with _ | ⟨c, rest⟩
      · rcases q with _ | ⟨a, q2⟩
        · exact absurd rfl hq
        · simp [List.isPrefixOf] at hp
      · have hidx : jsIndexOf (c :: rest) q = some 0 := by
          unfold jsIndexOf
          rw [if_pos hp]
        have hql : 1 ≤ q.length := by
          rcases q with _ | ⟨a, q2⟩
          · exact absurd rfl hq
          · simp
        rw [countLoopAux_succ_of_some hidx]
        simp only [scanCount]
        rw [if_pos hp]
        rw [show 0 + q.length = (q.length - 1) + 1 from by omega, List.drop_succ_cons]
        have hb : (rest.drop (q.length - 1)).length < g := by
          simp only [List.length_drop]
          simp only [List.length_cons] at hlt
          omega
        rw [ih (rest.drop (q.length - 1)) hb]
    · rcases t with _ | ⟨c, rest⟩
      · have hidx : jsIndexOf ([] : List Char) q = none := by
          unfold jsIndexOf
          rw [if_neg hp]
        rw [countLoopAux_succ_of_none hidx]
        simp only [scanCount]
      · have hrg : rest.length < g := by
          simp only [List.length_cons] at hlt
          omega
        have step : countLoopAux (g + 1) (c :: rest) q = countLoopAux g rest q := by
          cases hr : jsIndexOf rest q with
          | none =>
            have hidx : jsIndexOf (c :: rest) q = none := by
              unfold jsIndexOf
              rw [if_neg hp]
              dsimp only
              rw [hr]
              rfl
            cases g with
            | zero => omega
            | succ g2 =>
              rw [countLoopAux_succ_of_none hidx, countLoopAux_succ_of_none hr]
          | some j =>
            have hidx : jsIndexOf (c :: rest) q = some (j + 1) := by
              unfold jsIndexOf
              rw [if_neg hp]
              dsimp only
              rw [hr]
              rfl
            cases g with
            | zero => omega
            | succ g2 =>
              rw [countLoopAux_succ_of_some hidx, countLoopAux_succ_of_some hr]
              have hdropeq : (c :: rest).drop (j + 1 + q.length) = rest.drop (j + q.length) := by
                rw [show j + 1 + q.length = (j + q.length) + 1 from by omega,
                  List.drop_succ_cons]
              rw [hdropeq]
              have hj : j < rest.length := jsIndexOf_lt hq hr
              have hql : 1 ≤ q.length := by
                rcases q with _ | ⟨a, q2⟩
                · exact absurd rfl hq
                · simp
              have hb1 : (rest.drop (j + q.length)).length < g2 + 1 := by
                simp only [List.length_drop]; omega
              have hb2 : (rest.drop (j + q.length)).length < g2 := by
                simp only [List.length_drop]
                omega
              rw [countLoopAux_congr q hq (g2 + 1) (rest.drop (j + q.length)) g2 hb1 hb2]
        rw [step, ih rest hrg]
        conv_rhs => rw [scanCount]
        rw [if_neg hp]

/-- C2: for every text and non-empty query, the per-message count of the
source loop equals the spec-side number of exact, non-overlapping,
case-insensitive literal occurrences obtained by a left-to-right scan that
advances by the query length after each match; in particular the count for
text aaaa and query aa is 2, not 3. -/
theorem findAllMatchesInText_count (text query : String) (hq : query ≠ "") :
    findAllMatchesInText text query = nonOverlapCount text query
    ∧ findAllMatchesInText "aaaa" "aa" = 2 := by
  constructor
  · unfold findAllMatchesInText nonOverlapCount
    apply countLoopAux_eq_scanCount
    · intro h0
      apply hq
      obtain ⟨d⟩ := query
      have hd : d = [] := by
        have := congrArg List.length h0
        simpa using this
      subst hd
      rfl
    · exact Nat.lt_succ_self _
  · decide

/-- C2 witness: concrete instance at text aaaa, query aa. -/
theorem findAllMatchesInText_count_witness :
    findAllMatchesInText "aaaa" "aa" = nonOverlapCount "aaaa" "aa"
    ∧ findAllMatchesInText "aaaa" "aa" = 2 :=
  findAllMatchesInText_count "aaaa" "aa" (by decide)
